import Mathlib

/-!
Verification of the iobuf windowed byte-buffer library.

The file `src/impls.rs` of the repository defines the capability wrappers `ROIobuf`
and `RWIobuf` (both delegating every operation to a `RawIobuf`) and the
double-buffered `IORingbuf`.  The file `raw.rs`, holding `RawIobuf` itself,
is not part of the visible sources, so the raw window/limits operations are
modelled here from the specification (window/limits data model, navigation
operations, bounds-checked accessors, endian codec), while the ring-buffer
logic is translated directly from `impls.rs`.

The backing storage is modelled as an explicit `Buffer` (a list of byte
values) passed alongside the view state: a view holds only its limits
`(lo_min, hi_max)` and window `(lo, hi)`, exactly as in the data model,
and sharing of a buffer between clones is represented by two views being
paired with the same `Buffer` value.
-/

set_option maxHeartbeats 1000000

namespace IobufModel

/-- The shared backing storage: a byte region.  `true_length` is its length. -/
abbrev Buffer := List Nat

/-- Modelled from the spec: the `RawIobuf` window/limits state (`raw.rs` is
not among the visible sources).  `limits = (lo_min, hi_max)` is the largest
range this view may ever touch, `window = (lo, hi)` the currently active
sub-range; all four are byte offsets into the shared buffer. -/
structure RawIobuf where
  lo_min : Nat
  lo     : Nat
  hi     : Nat
  hi_max : Nat
deriving Repr, DecidableEq

/-- The invariant `0 ≤ lo_min ≤ lo ≤ hi ≤ hi_max ≤ true_length`
(`0 ≤ lo_min` is automatic over `Nat`). -/
def inv (tl : Nat) (v : RawIobuf) : Prop :=
  v.lo_min ≤ v.lo ∧ v.lo ≤ v.hi ∧ v.hi ≤ v.hi_max ∧ v.hi_max ≤ tl

instance (tl : Nat) (v : RawIobuf) : Decidable (inv tl v) := by
  unfold inv; infer_instance

namespace RawIobuf

/-- Modelled from the spec: window length `len = hi - lo`. -/
def len (v : RawIobuf) : Nat := v.hi - v.lo

/-- Modelled from the spec: capacity `cap = hi_max - lo_min`, the length of
the limits. -/
def cap (v : RawIobuf) : Nat := v.hi_max - v.lo_min

/-- Modelled from the spec: `is_empty` is true iff the window has length 0. -/
def is_empty (v : RawIobuf) : Bool := len v == 0

/-- Modelled from the spec: a fresh view over an owned region of `n` bytes,
`limits = window = (0, n)`. -/
def mk_new (n : Nat) : RawIobuf := ⟨0, 0, n, n⟩

/-- Modelled from the spec: checked `advance(len)`, requires `lo + len ≤ hi`,
sets `lo += len`. -/
def advance (v : RawIobuf) (n : Nat) : Option RawIobuf :=
  if v.lo + n ≤ v.hi then some { v with lo := v.lo + n } else none

/-- Modelled from the spec: checked `extend(len)`, requires `hi + len ≤ hi_max`,
sets `hi += len`. -/
def extend (v : RawIobuf) (n : Nat) : Option RawIobuf :=
  if v.hi + n ≤ v.hi_max then some { v with hi := v.hi + n } else none

/-- Modelled from the spec: checked `resize(len)`, requires `lo + len ≤ hi_max`,
sets `hi := lo + len`. -/
def resize (v : RawIobuf) (n : Nat) : Option RawIobuf :=
  if v.lo + n ≤ v.hi_max then some { v with hi := v.lo + n } else none

/-- Modelled from the spec: `narrow()` sets `limits := window`. -/
def narrow (v : RawIobuf) : RawIobuf :=
  { v with lo_min := v.lo, hi_max := v.hi }

/-- Modelled from the spec: `rewind()` sets `window := limits`. -/
def rewind (v : RawIobuf) : RawIobuf :=
  { v with lo := v.lo_min, hi := v.hi_max }

/-- Modelled from the spec: `reset()` sets `limits := window := (0, true_length)`. -/
def reset (tl : Nat) (_v : RawIobuf) : RawIobuf := ⟨0, 0, tl, tl⟩

/-- Modelled from the spec: `flip_lo()` pivots from fill-mode to drain-mode,
the written span becomes the window: `window := (lo_min, lo)`, limits
unchanged. -/
def flip_lo (v : RawIobuf) : RawIobuf :=
  { v with lo := v.lo_min, hi := v.lo }

/-- Modelled from the spec: `flip_hi()`, the dual pivot using the upper limit:
`window := (hi, hi_max)`, limits unchanged. -/
def flip_hi (v : RawIobuf) : RawIobuf :=
  { v with lo := v.hi, hi := v.hi_max }

/-- Modelled from the spec: `sub(pos, len)` reinterprets the window as
starting `pos` bytes after `lo` with length `len` and shrinks the limits to
match; requires the range to lie within the current limits. -/
def sub (v : RawIobuf) (pos n : Nat) : Option RawIobuf :=
  if v.lo + pos + n ≤ v.hi_max then
    some ⟨v.lo + pos, v.lo + pos, v.lo + pos + n, v.lo + pos + n⟩
  else none

/-- Modelled from the spec: `sub_window(pos, len)` moves the window only
(limits unaffected); requires the range to lie within the current window. -/
def sub_window (v : RawIobuf) (pos n : Nat) : Option RawIobuf :=
  if v.lo + pos + n ≤ v.hi then
    some { v with lo := v.lo + pos, hi := v.lo + pos + n }
  else none

/-- Modelled from the spec: checked `set_limits_and_window`, the limits may
only shrink and the new window must lie within the new limits. -/
def set_limits_and_window (v : RawIobuf) (lm hm l h : Nat) : Option RawIobuf :=
  if v.lo_min ≤ lm ∧ hm ≤ v.hi_max ∧ lm ≤ l ∧ l ≤ h ∧ h ≤ hm then
    some ⟨lm, l, h, hm⟩
  else none

end RawIobuf

/-- Read `n` bytes of a buffer starting at absolute offset `start`. -/
def readBytes (b : Buffer) (start n : Nat) : List Nat :=
  (b.drop start).take n

/-- Overwrite the bytes of a buffer at absolute offset `start` with `src`. -/
def writeBytes (b : Buffer) (start : Nat) (src : List Nat) : Buffer :=
  b.take start ++ src ++ b.drop (start + src.length)

namespace RawIobuf

/-- Modelled from the spec: `check_range(pos, len)` validates that
`[lo+pos, lo+pos+len)` lies within `[lo, hi)`. -/
def check_range (v : RawIobuf) (pos n : Nat) : Bool :=
  v.lo + pos + n ≤ v.hi

/-- Modelled from the spec: checked `peek(pos, dst)` copies `dst.len()` bytes
out of the window at offset `pos` from `lo`; window unchanged; all-or-nothing. -/
def peek (b : Buffer) (v : RawIobuf) (pos n : Nat) : Option (List Nat) :=
  if check_range v pos n then some (readBytes b (v.lo + pos) n) else none

/-- Modelled from the spec: checked `poke(pos, src)` copies `src` into the
window at offset `pos` from `lo`; window unchanged; all-or-nothing. -/
def poke (b : Buffer) (v : RawIobuf) (pos : Nat) (src : List Nat) : Option Buffer :=
  if check_range v pos src.length then
    some (writeBytes b (v.lo + pos) src)
  else none

/-- Modelled from the spec: checked `consume(dst)` = `peek` at offset 0
followed by `advance` by the copied length. -/
def consume (b : Buffer) (v : RawIobuf) (n : Nat) : Option (List Nat × RawIobuf) :=
  match peek b v 0 n, advance v n with
  | some d, some v' => some (d, v')
  | _, _ => none

/-- Modelled from the spec: checked `fill(src)` = `poke` at offset 0 followed
by `advance` by the copied length. -/
def fill (b : Buffer) (v : RawIobuf) (src : List Nat) : Option (Buffer × RawIobuf) :=
  match poke b v 0 src, advance v src.length with
  | some b', some v' => some (b', v')
  | _, _ => none

end RawIobuf

/-- Big-endian byte encoding of a value into `w` bytes
(most-significant byte first). -/
def bytesBE : Nat → Nat → List Nat
  | 0, _ => []
  | w + 1, t => bytesBE w (t / 256) ++ [t % 256]

/-- Little-endian byte encoding of a value into `w` bytes
(least-significant byte first). -/
def bytesLE : Nat → Nat → List Nat
  | 0, _ => []
  | w + 1, t => t % 256 :: bytesLE w (t / 256)

/-- Reassemble a big-endian byte list into a value. -/
def fromBE (bs : List Nat) : Nat :=
  bs.foldl (fun acc x => acc * 256 + x) 0

/-- Reassemble a little-endian byte list into a value. -/
def fromLE (bs : List Nat) : Nat :=
  bs.foldr (fun x acc => acc * 256 + x) 0

namespace RawIobuf

/-- Modelled from the spec: `peek_be::<T>(pos)` for a `w`-byte primitive. -/
def peek_be (b : Buffer) (v : RawIobuf) (pos w : Nat) : Option Nat :=
  (peek b v pos w).map fromBE

/-- Modelled from the spec: `peek_le::<T>(pos)` for a `w`-byte primitive. -/
def peek_le (b : Buffer) (v : RawIobuf) (pos w : Nat) : Option Nat :=
  (peek b v pos w).map fromLE

/-- Modelled from the spec: `poke_be::<T>(pos, t)` for a `w`-byte primitive. -/
def poke_be (b : Buffer) (v : RawIobuf) (pos w t : Nat) : Option Buffer :=
  poke b v pos (bytesBE w t)

/-- Modelled from the spec: `poke_le::<T>(pos, t)` for a `w`-byte primitive. -/
def poke_le (b : Buffer) (v : RawIobuf) (pos w t : Nat) : Option Buffer :=
  poke b v pos (bytesLE w t)

/-- Modelled from the spec: `fill_be::<T>(t)` for a `w`-byte primitive. -/
def fill_be (b : Buffer) (v : RawIobuf) (w t : Nat) : Option (Buffer × RawIobuf) :=
  fill b v (bytesBE w t)

/-- Modelled from the spec: `fill_le::<T>(t)` for a `w`-byte primitive. -/
def fill_le (b : Buffer) (v : RawIobuf) (w t : Nat) : Option (Buffer × RawIobuf) :=
  fill b v (bytesLE w t)

/-- Modelled from the spec: `consume_be::<T>()` for a `w`-byte primitive. -/
def consume_be (b : Buffer) (v : RawIobuf) (w : Nat) : Option (Nat × RawIobuf) :=
  (consume b v w).map fun p => (fromBE p.1, p.2)

/-- Modelled from the spec: `consume_le::<T>()` for a `w`-byte primitive. -/
def consume_le (b : Buffer) (v : RawIobuf) (w : Nat) : Option (Nat × RawIobuf) :=
  (consume b v w).map fun p => (fromLE p.1, p.2)

end RawIobuf

/-- The read-only capability wrapper (`impls.rs` lines 20–22): a `RawIobuf`
with only the non-write accessors reachable. -/
structure ROIobuf where
  raw : RawIobuf
deriving Repr, DecidableEq

/-- The read-write capability wrapper (`impls.rs` lines 47–49). -/
structure RWIobuf where
  raw : RawIobuf
deriving Repr, DecidableEq

/-- Modelled from the spec: `RawIobuf::clone` (in the missing `raw.rs`)
shares the refcounted storage and copies the limits and window by value;
on the explicit-buffer model this is the identity on the view state, with
sharing expressed by pairing both clones with the same `Buffer`. -/
def RawIobuf.clone (v : RawIobuf) : RawIobuf := v

/-- Translation of `Clone for ROIobuf` (`impls.rs` lines 24–30): clones the raw view. -/
def ROIobuf.clone (v : ROIobuf) : ROIobuf := ⟨v.raw.clone⟩

/-- Translation of `Clone for RWIobuf` (`impls.rs` lines 51–57): clones the raw view. -/
def RWIobuf.clone (v : RWIobuf) : RWIobuf := ⟨v.raw.clone⟩

/-- Translation of `RWIobuf::read_only` (`impls.rs` lines 326–329): the cheap
downgrade, building an `ROIobuf` around a clone of the raw view. -/
def RWIobuf.read_only (v : RWIobuf) : ROIobuf := ⟨v.raw.clone⟩

/-- Translation of `RWIobuf::new(len)` (`impls.rs` line 183): a fresh buffer of size `len`
(contents unspecified, modelled as zeros) with limits and window set to the
full size. -/
def RWIobuf.mk_new (n : Nat) : RWIobuf × Buffer :=
  (⟨RawIobuf.mk_new n⟩, List.replicate n 0)

/-- The checked navigation operations named by the invariant property,
as an explicit alphabet so that arbitrary sequences can be run. -/
inductive NavOp where
  | advance (n : Nat)
  | extend (n : Nat)
  | resize (n : Nat)
  | narrow
  | sub (pos n : Nat)
  | sub_window (pos n : Nat)
  | rewind
  | reset
  | flip_lo
  | flip_hi
  | set_limits_and_window (lm hm l h : Nat)
deriving Repr, DecidableEq

/-- Run one navigation operation on a view over a buffer of true length `tl`.
The always-succeeding operations are wrapped in `some`. -/
def applyNav (tl : Nat) (v : RawIobuf) : NavOp → Option RawIobuf
  | .advance n => v.advance n
  | .extend n => v.extend n
  | .resize n => v.resize n
  | .narrow => some v.narrow
  | .sub pos n => v.sub pos n
  | .sub_window pos n => v.sub_window pos n
  | .rewind => some v.rewind
  | .reset => some (RawIobuf.reset tl v)
  | .flip_lo => some v.flip_lo
  | .flip_hi => some v.flip_hi
  | .set_limits_and_window lm hm l h => v.set_limits_and_window lm hm l h

/-- Run a sequence of navigation operations; `some` exactly when every
checked call returned `Ok`. -/
def runNav (tl : Nat) (v : RawIobuf) : List NavOp → Option RawIobuf
  | [] => some v
  | op :: ops =>
    match applyNav tl v op with
    | some v' => runNav tl v' ops
    | none => none

/-- Translation of `IORingbuf` (`impls.rs` lines 972–979): two read-write views, each over
its own freshly allocated storage, used alternately as input-fill and
output-drain halves. -/
structure IORingbuf where
  i_buf : RWIobuf
  i_store : Buffer
  o_buf : RWIobuf
  o_store : Buffer
deriving Repr, DecidableEq

namespace IORingbuf

/-- Translation of `IORingbuf::new(cap)` (`impls.rs` lines 981–992): the input half gets
`cap / 2` bytes, the output half the remainder, and the output buffer is
immediately `flip_lo`ed so it starts with an empty window. -/
def mk_new (cap : Nat) : IORingbuf :=
  let left_size := cap / 2
  let i := RWIobuf.mk_new left_size
  let o := RWIobuf.mk_new (cap - left_size)
  { i_buf := i.1, i_store := i.2,
    o_buf := ⟨o.1.raw.flip_lo⟩, o_store := o.2 }

/-- Translation of `IORingbuf::pop_buf` (`impls.rs` lines 1013–1023): if the window
of the output view
is empty, `flip_lo` the input view, `reset` the output view, and swap
the two halves; the returned view is the output half reinterpreted as
read-only (the source performs this reinterpretation with `mem::transmute`). -/
def pop_buf (rb : IORingbuf) : IORingbuf × ROIobuf :=
  let rb' :=
    if rb.o_buf.raw.is_empty then
      { i_buf := ⟨RawIobuf.reset rb.o_store.length rb.o_buf.raw⟩,
        i_store := rb.o_store,
        o_buf := ⟨rb.i_buf.raw.flip_lo⟩,
        o_store := rb.i_store }
    else rb
  (rb', ⟨rb'.o_buf.raw⟩)

/-- Translation of `IORingbuf::push_buf` (`impls.rs` lines 1000–1002): exposes the input
view for filling.  Filling `src` through it is `fill` on the input half. -/
def fill_push (rb : IORingbuf) (src : List Nat) : Option IORingbuf :=
  (RawIobuf.fill rb.i_store rb.i_buf.raw src).map fun p =>
    { rb with i_store := p.1, i_buf := ⟨p.2⟩ }

/-- Translation of `IORingbuf::is_empty` (`impls.rs` lines 1025–1029). -/
def is_empty (rb : IORingbuf) : Bool :=
  rb.i_buf.raw.cap == rb.i_buf.raw.len && rb.o_buf.raw.is_empty

/-- Translation of `IORingbuf::is_full` (`impls.rs` lines 1031–1035). -/
def is_full (rb : IORingbuf) : Bool :=
  rb.i_buf.raw.is_empty

end IORingbuf

/-- The bytes currently visible through the window of a view. -/
def windowBytes (b : Buffer) (v : RawIobuf) : List Nat :=
  readBytes b v.lo (v.hi - v.lo)

/-- Effectful run of checked `poke`: on error the caller keeps the original
buffer and view untouched (the Rust call mutates in place only on `Ok`). -/
def poke_run (b : Buffer) (v : RawIobuf) (pos : Nat) (src : List Nat) :
    Buffer × RawIobuf :=
  match RawIobuf.poke b v pos src with
  | some b' => (b', v)
  | none => (b, v)

/-- Effectful run of checked `fill`: on error the original buffer and view
are untouched. -/
def fill_run (b : Buffer) (v : RawIobuf) (src : List Nat) : Buffer × RawIobuf :=
  match RawIobuf.fill b v src with
  | some p => p
  | none => (b, v)

/-- Effectful run of checked `consume`: on error the original buffer and view
are untouched; on success only the window moves. -/
def consume_run (b : Buffer) (v : RawIobuf) (n : Nat) : Buffer × RawIobuf :=
  match RawIobuf.consume b v n with
  | some p => (b, p.2)
  | none => (b, v)

/-- Effectful run of a checked navigation operation: on error the view is
untouched. -/
def nav_run (tl : Nat) (v : RawIobuf) (op : NavOp) : RawIobuf :=
  (applyNav tl v op).getD v

/-- The ring buffer of requested capacity 10 from end-to-end scenario 3. -/
def c7_ring : IORingbuf := IORingbuf.mk_new 10

/-- The state of `c7_ring` after filling the five bytes `1,2,3,4,5` through
`push_buf` (the input half is 5 bytes, so it is now full). -/
def c7_filled : IORingbuf :=
  { i_buf := ⟨⟨0, 5, 5, 5⟩⟩, i_store := [1, 2, 3, 4, 5],
    o_buf := ⟨⟨0, 0, 0, 5⟩⟩, o_store := [0, 0, 0, 0, 0] }

/-!
## Helper lemmas
-/

theorem length_bytesBE (w t : Nat) : (bytesBE w t).length = w := by
  induction w generalizing t with
  | zero => rfl
  | succ w ih => simp [bytesBE, ih]

theorem length_bytesLE (w t : Nat) : (bytesLE w t).length = w := by
  induction w generalizing t with
  | zero => rfl
  | succ w ih => simp [bytesLE, ih]

theorem fromBE_bytesBE (w t : Nat) (h : t < 256 ^ w) : fromBE (bytesBE w t) = t := by
  induction w generalizing t with
  | zero =>
    have ht : t = 0 := by simpa using h
    simp [bytesBE, fromBE, ht]
  | succ w ih =>
    have hdiv : t / 256 < 256 ^ w := by
      rw [Nat.div_lt_iff_lt_mul (by norm_num)]
      calc t < 256 ^ (w + 1) := h
        _ = 256 ^ w * 256 := by ring
    have hrec := ih (t / 256) hdiv
    unfold bytesBE fromBE
    rw [List.foldl_append]
    unfold fromBE at hrec
    rw [hrec]
    simp only [List.foldl_cons, List.foldl_nil]
    omega

theorem fromLE_bytesLE (w t : Nat) (h : t < 256 ^ w) : fromLE (bytesLE w t) = t := by
  induction w generalizing t with
  | zero =>
    have ht : t = 0 := by simpa using h
    simp [bytesLE, fromLE, ht]
  | succ w ih =>
    have hdiv : t / 256 < 256 ^ w := by
      rw [Nat.div_lt_iff_lt_mul (by norm_num)]
      calc t < 256 ^ (w + 1) := h
        _ = 256 ^ w * 256 := by ring
    have hrec := ih (t / 256) hdiv
    unfold bytesLE fromLE
    simp only [List.foldr_cons]
    unfold fromLE at hrec
    rw [hrec]
    omega

theorem readBytes_writeBytes (b : Buffer) (start : Nat) (src : List Nat)
    (h : start + src.length ≤ b.length) :
    readBytes (writeBytes b start src) start src.length = src := by
  unfold readBytes writeBytes
  rw [List.append_assoc, List.drop_append_of_le_length (by rw [List.length_take]; omega)]
  have h2 : List.drop start (List.take start b) = [] := by
    apply List.drop_eq_nil_of_le
    rw [List.length_take]
    omega
  rw [h2, List.nil_append]
  exact List.take_left src _

theorem applyNav_inv {tl : Nat} {v w : RawIobuf} {op : NavOp}
    (hv : inv tl v) (h : applyNav tl v op = some w) : inv tl w := by
  obtain ⟨h1, h2, h3, h4⟩ := hv
  cases op <;>
    simp only [applyNav, RawIobuf.advance, RawIobuf.extend, RawIobuf.resize,
      RawIobuf.narrow, RawIobuf.sub, RawIobuf.sub_window, RawIobuf.rewind,
      RawIobuf.reset, RawIobuf.flip_lo, RawIobuf.flip_hi,
      RawIobuf.set_limits_and_window, Option.ite_none_right_eq_some,
      Option.some.injEq] at h
  all_goals first
    | (obtain ⟨hc, hw⟩ := h; subst hw; unfold inv; dsimp only; omega)
    | (subst h; unfold inv; dsimp only; omega)

/-!
## Claim theorems
-/

/-- C1: for every view and every sequence of the navigation operations
`advance`, `extend`, `resize`, `narrow`, `sub`, `sub_window`, `rewind`,
`reset`, `flip_lo`, `flip_hi`, `set_limits_and_window` in which every
checked call returned `Ok`, the invariant
`0 ≤ lo_min ≤ lo ≤ hi ≤ hi_max ≤ true_length` holds afterwards.
Both `ROIobuf` and `RWIobuf` delegate each of these operations to the same
`RawIobuf` implementation, so the statement over `RawIobuf` covers both. -/
theorem c1_nav_invariant (tl : Nat) (v v' : RawIobuf) (ops : List NavOp)
    (hv : inv tl v) (h : runNav tl v ops = some v') : inv tl v' := by
  induction ops generalizing v with
  | nil =>
    unfold runNav at h
    injection h with h
    subst h
    exact hv
  | cons op ops ih =>
    unfold runNav at h
    cases hop : applyNav tl v op with
    | none => rw [hop] at h; exact Option.noConfusion h
    | some u => rw [hop] at h; exact ih u (applyNav_inv ⟨hv.1, hv.2.1, hv.2.2.1, hv.2.2.2⟩ hop) h

/-- Witness for C1: a concrete view of true length 10 driven through a
concrete successful sequence of navigation operations keeps the invariant. -/
theorem c1_nav_invariant_witness :
    inv 10 ⟨0, 0, 10, 10⟩ ∧
    runNav 10 ⟨0, 0, 10, 10⟩
      [.advance 1, .resize 2, .flip_lo, .rewind, .reset, .narrow,
       .sub_window 1 3, .sub 0 2] = some ⟨1, 1, 3, 3⟩ ∧
    inv 10 ⟨1, 1, 3, 3⟩ :=
  ⟨by decide, by decide,
    c1_nav_invariant 10 ⟨0, 0, 10, 10⟩ ⟨1, 1, 3, 3⟩
      [.advance 1, .resize 2, .flip_lo, .rewind, .reset, .narrow,
       .sub_window 1 3, .sub 0 2] (by decide) (by decide)⟩

/-- C2: every checked operation (`peek`, `poke`, `consume`, `fill`, their
`_be`/`_le` variants, and the checked navigation operations) is
all-or-nothing: it fails exactly when the requested range exceeds the
window (resp. the navigation check fails), and on failure the effectful run
leaves the buffer bytes and the window and limits of the view exactly as
they were; on success the full effect is applied at once.  The `_be`/`_le`
variants are the base operations on the codec byte strings, so they inherit
the same behaviour. -/
theorem c2_all_or_nothing (b : Buffer) (v : RawIobuf) (pos n w t tl : Nat)
    (src : List Nat) (op : NavOp) :
    (poke_run b v pos src =
      if v.lo + pos + src.length ≤ v.hi then (writeBytes b (v.lo + pos) src, v)
      else (b, v)) ∧
    (fill_run b v src =
      if v.lo + src.length ≤ v.hi then
        (writeBytes b v.lo src, { v with lo := v.lo + src.length })
      else (b, v)) ∧
    (RawIobuf.peek b v pos n =
      if v.lo + pos + n ≤ v.hi then some (readBytes b (v.lo + pos) n) else none) ∧
    (consume_run b v n =
      if v.lo + n ≤ v.hi then (b, { v with lo := v.lo + n }) else (b, v)) ∧
    (RawIobuf.poke_be b v pos w t = RawIobuf.poke b v pos (bytesBE w t)) ∧
    (RawIobuf.poke_le b v pos w t = RawIobuf.poke b v pos (bytesLE w t)) ∧
    (RawIobuf.fill_be b v w t = RawIobuf.fill b v (bytesBE w t)) ∧
    (RawIobuf.fill_le b v w t = RawIobuf.fill b v (bytesLE w t)) ∧
    ((RawIobuf.peek_be b v pos w).isNone = (RawIobuf.peek b v pos w).isNone) ∧
    ((RawIobuf.peek_le b v pos w).isNone = (RawIobuf.peek b v pos w).isNone) ∧
    ((RawIobuf.consume_be b v w).isNone = (RawIobuf.consume b v w).isNone) ∧
    ((RawIobuf.consume_le b v w).isNone = (RawIobuf.consume b v w).isNone) ∧
    (applyNav tl v op = none → nav_run tl v op = v) := by
  refine ⟨?_, ?_, ?_, ?_, rfl, rfl, rfl, rfl, ?_, ?_, ?_, ?_, ?_⟩
  · by_cases hc : v.lo + pos + src.length ≤ v.hi <;>
      simp [poke_run, RawIobuf.poke, RawIobuf.check_range, hc]
  · by_cases hc : v.lo + src.length ≤ v.hi <;>
      simp [fill_run, RawIobuf.fill, RawIobuf.poke, RawIobuf.advance,
        RawIobuf.check_range, hc]
  · by_cases hc : v.lo + pos + n ≤ v.hi <;>
      simp [RawIobuf.peek, RawIobuf.check_range, hc]
  · by_cases hc : v.lo + n ≤ v.hi <;>
      simp [consume_run, RawIobuf.consume, RawIobuf.peek, RawIobuf.advance,
        RawIobuf.check_range, hc]
  · cases hp : RawIobuf.peek b v pos w <;> simp [RawIobuf.peek_be, hp]
  · cases hp : RawIobuf.peek b v pos w <;> simp [RawIobuf.peek_le, hp]
  · cases hp : RawIobuf.consume b v w <;> simp [RawIobuf.consume_be, hp]
  · cases hp : RawIobuf.consume b v w <;> simp [RawIobuf.consume_le, hp]
  · intro h
    unfold nav_run
    rw [h]
    rfl

/-- Witness for C2 at concrete inputs: a failing `advance` leaves the view
untouched under the effectful run. -/
theorem c2_all_or_nothing_witness :
    applyNav 2 ⟨0, 0, 2, 2⟩ (.advance 3) = none ∧
    nav_run 2 ⟨0, 0, 2, 2⟩ (.advance 3) = ⟨0, 0, 2, 2⟩ :=
  ⟨by decide,
    (c2_all_or_nothing [1, 2] ⟨0, 0, 2, 2⟩ 0 1 1 5 2 [9]
      (.advance 3)).2.2.2.2.2.2.2.2.2.2.2.2 (by decide)⟩

/-- C3: for every `w`-byte primitive value `t < 256 ^ w`, every writable view
and every `pos` with `pos + w` within the window, `poke_be(pos, t)` followed
by `peek_be(pos)` returns `Ok(t)`, and likewise for the little-endian pair. -/
theorem c3_poke_peek_roundtrip (b : Buffer) (v : RawIobuf) (pos w t : Nat)
    (hrange : v.lo + pos + w ≤ v.hi) (hbuf : v.hi ≤ b.length)
    (ht : t < 256 ^ w) :
    (RawIobuf.poke_be b v pos w t).bind (fun b' => RawIobuf.peek_be b' v pos w) =
      some t ∧
    (RawIobuf.poke_le b v pos w t).bind (fun b' => RawIobuf.peek_le b' v pos w) =
      some t := by
  constructor
  · have hlen : (bytesBE w t).length = w := length_bytesBE w t
    have hc : RawIobuf.check_range v pos (bytesBE w t).length = true := by
      simp only [RawIobuf.check_range, hlen, decide_eq_true_eq]
      omega
    have hc2 : RawIobuf.check_range v pos w = true := by
      simp only [RawIobuf.check_range, decide_eq_true_eq]
      omega
    have hread := readBytes_writeBytes b (v.lo + pos) (bytesBE w t) (by rw [hlen]; omega)
    rw [hlen] at hread
    unfold RawIobuf.poke_be RawIobuf.poke RawIobuf.peek_be RawIobuf.peek
    rw [if_pos hc]
    simp only [Option.some_bind]
    rw [if_pos hc2, hread]
    simp [fromBE_bytesBE w t ht]
  · have hlen : (bytesLE w t).length = w := length_bytesLE w t
    have hc : RawIobuf.check_range v pos (bytesLE w t).length = true := by
      simp only [RawIobuf.check_range, hlen, decide_eq_true_eq]
      omega
    have hc2 : RawIobuf.check_range v pos w = true := by
      simp only [RawIobuf.check_range, decide_eq_true_eq]
      omega
    have hread := readBytes_writeBytes b (v.lo + pos) (bytesLE w t) (by rw [hlen]; omega)
    rw [hlen] at hread
    unfold RawIobuf.poke_le RawIobuf.poke RawIobuf.peek_le RawIobuf.peek
    rw [if_pos hc]
    simp only [Option.some_bind]
    rw [if_pos hc2, hread]
    simp [fromLE_bytesLE w t ht]

/-- Witness for C3: writing the 16-bit value `0x0304` big-endian at offset 1
of a 4-byte view and reading it back, and likewise little-endian. -/
theorem c3_poke_peek_roundtrip_witness :
    (0 + 1 + 2 ≤ 4 ∧ 4 ≤ 4 ∧ 0x0304 < 256 ^ 2) ∧
    (RawIobuf.poke_be [0, 0, 0, 0] ⟨0, 0, 4, 4⟩ 1 2 0x0304).bind
      (fun b' => RawIobuf.peek_be b' ⟨0, 0, 4, 4⟩ 1 2) = some 0x0304 ∧
    (RawIobuf.poke_le [0, 0, 0, 0] ⟨0, 0, 4, 4⟩ 1 2 0x0304).bind
      (fun b' => RawIobuf.peek_le b' ⟨0, 0, 4, 4⟩ 1 2) = some 0x0304 := by
  have h := c3_poke_peek_roundtrip [0, 0, 0, 0] ⟨0, 0, 4, 4⟩ 1 2 0x0304
    (by decide) (by decide) (by decide)
  exact ⟨⟨by decide, by decide, by decide⟩, h.1, h.2⟩

/-- C4: `pop_buf` performs the flip/swap transition exactly when the window
of the output view is empty at the time of the call: in that case it first
applies `flip_lo` to the input view, resets the output view to its full
span, and swaps the roles of the two views (the former input becomes the
output and vice versa); when the window of the output view is non-empty,
`pop_buf` changes the state of neither view.  The returned read-only view
is the output half of the post-transition state. -/
theorem c4_pop_buf_transition (rb : IORingbuf) :
    (rb.o_buf.raw.len = 0 →
      (rb.pop_buf).1 =
        { i_buf := ⟨RawIobuf.reset rb.o_store.length rb.o_buf.raw⟩,
          i_store := rb.o_store,
          o_buf := ⟨rb.i_buf.raw.flip_lo⟩,
          o_store := rb.i_store }) ∧
    (rb.o_buf.raw.len ≠ 0 → (rb.pop_buf).1 = rb) ∧
    (rb.pop_buf).2 = ⟨(rb.pop_buf).1.o_buf.raw⟩ := by
  refine ⟨?_, ?_, ?_⟩
  · intro h
    simp [IORingbuf.pop_buf, RawIobuf.is_empty, h]
  · intro h
    simp [IORingbuf.pop_buf, RawIobuf.is_empty, h]
  · by_cases h : rb.o_buf.raw.len = 0 <;>
      simp [IORingbuf.pop_buf, RawIobuf.is_empty, h]

/-- Witness for C4: on a freshly constructed ring buffer of capacity 4 the
output half is empty, so `pop_buf` takes the flip/swap branch. -/
theorem c4_pop_buf_transition_witness :
    (IORingbuf.mk_new 4).o_buf.raw.len = 0 ∧
    ((IORingbuf.mk_new 4).pop_buf).1 =
      { i_buf := ⟨RawIobuf.reset (IORingbuf.mk_new 4).o_store.length
                    (IORingbuf.mk_new 4).o_buf.raw⟩,
        i_store := (IORingbuf.mk_new 4).o_store,
        o_buf := ⟨(IORingbuf.mk_new 4).i_buf.raw.flip_lo⟩,
        o_store := (IORingbuf.mk_new 4).i_store } :=
  ⟨by decide, (c4_pop_buf_transition (IORingbuf.mk_new 4)).1 (by decide)⟩

/-- C5: for a ring buffer whose input view satisfies the window/limits
invariant, `is_empty()` is true iff the window of the input view spans its
full limits (equivalently, its window length equals its capacity) and the
window of the output view is empty; and `is_full()` is true iff the window
of the input view is empty. -/
theorem c5_is_empty_is_full (rb : IORingbuf)
    (h1 : rb.i_buf.raw.lo_min ≤ rb.i_buf.raw.lo)
    (h2 : rb.i_buf.raw.lo ≤ rb.i_buf.raw.hi)
    (h3 : rb.i_buf.raw.hi ≤ rb.i_buf.raw.hi_max) :
    (rb.is_empty = true ↔
      (rb.i_buf.raw.len = rb.i_buf.raw.cap ∧ rb.o_buf.raw.len = 0)) ∧
    (rb.is_empty = true ↔
      (rb.i_buf.raw.lo = rb.i_buf.raw.lo_min ∧
       rb.i_buf.raw.hi = rb.i_buf.raw.hi_max ∧
       rb.o_buf.raw.len = 0)) ∧
    (rb.is_full = true ↔ rb.i_buf.raw.len = 0) := by
  simp only [IORingbuf.is_empty, IORingbuf.is_full, RawIobuf.is_empty,
    RawIobuf.len, RawIobuf.cap, Bool.and_eq_true, beq_iff_eq]
  refine ⟨?_, ?_, ?_⟩
  all_goals first
    | trivial
    | omega

/-- Witness for C5 on a concrete ring buffer of capacity 6 whose input view
satisfies the invariant. -/
theorem c5_is_empty_is_full_witness :
    ((IORingbuf.mk_new 6).i_buf.raw.lo_min ≤ (IORingbuf.mk_new 6).i_buf.raw.lo ∧
     (IORingbuf.mk_new 6).i_buf.raw.lo ≤ (IORingbuf.mk_new 6).i_buf.raw.hi ∧
     (IORingbuf.mk_new 6).i_buf.raw.hi ≤ (IORingbuf.mk_new 6).i_buf.raw.hi_max) ∧
    ((IORingbuf.mk_new 6).is_empty = true ↔
      ((IORingbuf.mk_new 6).i_buf.raw.len = (IORingbuf.mk_new 6).i_buf.raw.cap ∧
       (IORingbuf.mk_new 6).o_buf.raw.len = 0)) ∧
    ((IORingbuf.mk_new 6).is_full = true ↔ (IORingbuf.mk_new 6).i_buf.raw.len = 0) := by
  have h := c5_is_empty_is_full (IORingbuf.mk_new 6) (by decide) (by decide) (by decide)
  exact ⟨⟨by decide, by decide, by decide⟩, h.1, h.2.2⟩

/-- C6: `IORingbuf::new(cap)` creates the input view over a fresh buffer of
capacity `cap / 2` with a full window (window length equals its capacity),
and the output view over a fresh buffer of capacity `cap - cap / 2` with an
empty window. -/
theorem c6_mk_new_split (cap : Nat) :
    (IORingbuf.mk_new cap).i_buf.raw = ⟨0, 0, cap / 2, cap / 2⟩ ∧
    (IORingbuf.mk_new cap).i_store = List.replicate (cap / 2) 0 ∧
    (IORingbuf.mk_new cap).i_store.length = cap / 2 ∧
    (IORingbuf.mk_new cap).i_buf.raw.len = cap / 2 ∧
    (IORingbuf.mk_new cap).i_buf.raw.cap = cap / 2 ∧
    (IORingbuf.mk_new cap).o_buf.raw = ⟨0, 0, 0, cap - cap / 2⟩ ∧
    (IORingbuf.mk_new cap).o_store = List.replicate (cap - cap / 2) 0 ∧
    (IORingbuf.mk_new cap).o_store.length = cap - cap / 2 ∧
    (IORingbuf.mk_new cap).o_buf.raw.len = 0 ∧
    (IORingbuf.mk_new cap).o_buf.raw.cap = cap - cap / 2 := by
  simp [IORingbuf.mk_new, RWIobuf.mk_new, RawIobuf.mk_new, RawIobuf.flip_lo,
    RawIobuf.len, RawIobuf.cap]

/-- C7 counterexample: in a ring buffer of requested capacity 10 the input
half holds only `10 / 2 = 5` bytes, so "filling 6 bytes through
`push_buf()`" does not succeed: a single 6-byte `fill` fails, and filling
byte-by-byte fails on the sixth byte. -/
theorem c7_fill_six_fails :
    (IORingbuf.mk_new 10).i_store.length = 5 ∧
    IORingbuf.fill_push (IORingbuf.mk_new 10) [1, 2, 3, 4, 5, 6] = none ∧
    ((IORingbuf.fill_push (IORingbuf.mk_new 10) [1]).bind fun r1 =>
     (IORingbuf.fill_push r1 [2]).bind fun r2 =>
     (IORingbuf.fill_push r2 [3]).bind fun r3 =>
     (IORingbuf.fill_push r3 [4]).bind fun r4 =>
     (IORingbuf.fill_push r4 [5]).bind fun r5 =>
     IORingbuf.fill_push r5 [6]) = none := by
  refine ⟨by decide, by decide, by decide⟩

/-- C7 amended: in a ring buffer of capacity 10, filling 5 bytes through
`push_buf()` succeeds (a sixth byte does not fit), and a subsequent
`pop_buf()` on the resulting state finds the output window empty, triggers
the flip/swap, and yields a read-only view whose window contains exactly
those 5 bytes in the order written; at that point `is_full()` is false and
`is_empty()` is false. -/
theorem c7_amended_scenario :
    IORingbuf.fill_push c7_ring [1, 2, 3, 4, 5] = some c7_filled ∧
    IORingbuf.fill_push c7_filled [6] = none ∧
    c7_filled.o_buf.raw.len = 0 ∧
    windowBytes (c7_filled.pop_buf).1.o_store (c7_filled.pop_buf).2.raw =
      [1, 2, 3, 4, 5] ∧
    (c7_filled.pop_buf).1.is_full = false ∧
    (c7_filled.pop_buf).1.is_empty = false := by
  decide

/-- C8: the read-only view returned by `pop_buf` is observationally equal
(same shared buffer, same limits, same window) to applying `read_only()` to
the output view of the post-transition ring buffer.  Note that the source
obtains it by `mem::transmute` (`impls.rs` line 1022), not by calling
`read_only()`; in the model both constructions coincide. -/
theorem c8_pop_buf_read_only_observational (rb : IORingbuf) :
    (rb.pop_buf).2 = ((rb.pop_buf).1.o_buf).read_only := rfl

/-- C9: clones share the backing buffer and copy the limits and window by
value, so advancing one clone cannot affect the other, and a write through
one view is observed by a read through another view of the same buffer at
the same absolute position. -/
theorem c9_clone_sharing (b b' : Buffer) (v v' v1 v2 : RawIobuf)
    (n p1 p2 : Nat) (src : List Nat) :
    (RWIobuf.clone ⟨v⟩ = (⟨v⟩ : RWIobuf)) ∧
    (RawIobuf.advance (RWIobuf.clone ⟨v⟩).raw n = some v' →
      (RWIobuf.clone ⟨v⟩).raw = v ∧ v'.lo = v.lo + n ∧ v'.hi = v.hi ∧
      v'.lo_min = v.lo_min ∧ v'.hi_max = v.hi_max) ∧
    (v1.lo + p1 = v2.lo + p2 → v2.lo + p2 + src.length ≤ v2.hi →
      v2.hi ≤ b.length → RawIobuf.poke b v1 p1 src = some b' →
      RawIobuf.peek b' v2 p2 src.length = some src) := by
  refine ⟨rfl, ?_, ?_⟩
  · intro h
    unfold RWIobuf.clone RawIobuf.clone RawIobuf.advance at h
    split at h
    · injection h with h
      subst h
      exact ⟨rfl, rfl, rfl, rfl, rfl⟩
    · exact Option.noConfusion h
  · intro hpos hr hb hpoke
    unfold RawIobuf.poke RawIobuf.check_range at hpoke
    split at hpoke
    · injection hpoke with hpoke
      subst hpoke
      have hc2 : RawIobuf.check_range v2 p2 src.length = true := by
        simp only [RawIobuf.check_range, decide_eq_true_eq]
        omega
      unfold RawIobuf.peek
      rw [if_pos hc2, ← hpos]
      rw [readBytes_writeBytes b (v1.lo + p1) src (by omega)]
    · exact Option.noConfusion hpoke

/-- Witness for C9: two views over the same 4-byte buffer; a 2-byte write
through the first at absolute offset 1 is read back through the second. -/
theorem c9_clone_sharing_witness :
    (0 + 1 = 0 + 1 ∧ 0 + 1 + 2 ≤ 4 ∧ 4 ≤ 4 ∧
     RawIobuf.poke [0, 0, 0, 0] ⟨0, 0, 4, 4⟩ 1 [7, 8] = some [0, 7, 8, 0]) ∧
    RawIobuf.peek [0, 7, 8, 0] ⟨0, 0, 4, 4⟩ 1 2 = some [7, 8] :=
  ⟨⟨rfl, by decide, by decide, by decide⟩,
    (c9_clone_sharing [0, 0, 0, 0] [0, 7, 8, 0] ⟨0, 0, 4, 4⟩ ⟨0, 0, 4, 4⟩
      ⟨0, 0, 4, 4⟩ ⟨0, 0, 4, 4⟩ 1 1 1 [7, 8]).2.2 rfl (by decide) (by decide)
      (by decide)⟩

/-- C10: for every requested capacity `cap ≤ 1`, `IORingbuf::new(cap)` gives
the input view capacity `cap / 2 = 0`, so immediately after construction
both `is_full()` and `is_empty()` are true and no non-empty byte sequence
can be filled through the input view before a flip. -/
theorem c10_tiny_ring (cap : Nat) (src : List Nat)
    (hcap : cap ≤ 1) (hsrc : src ≠ []) :
    IORingbuf.is_full (IORingbuf.mk_new cap) = true ∧
    IORingbuf.is_empty (IORingbuf.mk_new cap) = true ∧
    (IORingbuf.mk_new cap).i_store.length = 0 ∧
    (IORingbuf.mk_new cap).i_buf.raw.len = 0 ∧
    IORingbuf.fill_push (IORingbuf.mk_new cap) src = none := by
  have h2 : cap / 2 = 0 := Nat.div_eq_of_lt (by omega)
  have hlen : src.length ≠ 0 := by simpa using hsrc
  refine ⟨?_, ?_, ?_, ?_, ?_⟩ <;>
    simp [IORingbuf.mk_new, RWIobuf.mk_new, RawIobuf.mk_new, RawIobuf.flip_lo,
      IORingbuf.is_full, IORingbuf.is_empty, IORingbuf.fill_push,
      RawIobuf.is_empty, RawIobuf.len, RawIobuf.cap, RawIobuf.fill,
      RawIobuf.poke, RawIobuf.advance, RawIobuf.check_range, h2, hlen]

/-- Witness for C10 at capacity 1 and the one-byte sequence `[9]`. -/
theorem c10_tiny_ring_witness :
    (1 ≤ 1 ∧ [9] ≠ ([] : List Nat)) ∧
    IORingbuf.is_full (IORingbuf.mk_new 1) = true ∧
    IORingbuf.is_empty (IORingbuf.mk_new 1) = true ∧
    IORingbuf.fill_push (IORingbuf.mk_new 1) [9] = none := by
  have h := c10_tiny_ring 1 [9] (by decide) (by decide)
  exact ⟨⟨by decide, by decide⟩, h.1, h.2.1, h.2.2.2.2⟩

end IobufModel
